import Mathlib

/-!
Verification of the URPX converter core (src/converter2.py).

The core of the converter operates on JSON documents parsed by `json.loads`.
We model JSON values with `JVal` and embed the core functions
(`get_label`, `_walk_pretty`, `urpx_to_script`, `urpx_to_txt`, `Job.run`)
as Lean functions over `JVal`.  Operations that can raise a Python
exception are modelled in `Except PyErr`; every dynamic access of the
source (attribute access on a non-dict, `str` methods on non-strings,
indexing, iteration over non-iterables) is mapped to the corresponding
error constructor.  Python string primitives (`strip`, `title`, `replace`,
`splitlines`, `startswith`, `join`) are modelled character-exactly for
ASCII data; the Unicode-only refinements of the Python definitions
(Unicode whitespace, Unicode cased letters) are outside the model, as the
documents involved are ASCII-keyed JSON.
-/

/-- A JSON value, as produced by `json.loads`.  Numbers are modelled as
integers (the documents at hand carry no fractional numbers); objects keep
their fields in order, and key lookup returns the first match. -/
inductive JVal where
  | null
  | jbool (b : Bool)
  | jnum (n : Int)
  | jstr (s : String)
  | jarr (elems : List JVal)
  | jobj (fields : List (String × JVal))

mutual

def beqJ : JVal → JVal → Bool
  | .null, .null => true
  | .jbool a, .jbool b => a == b
  | .jnum a, .jnum b => a == b
  | .jstr a, .jstr b => a == b
  | .jarr xs, .jarr ys => beqJL xs ys
  | .jobj fs, .jobj gs => beqJF fs gs
  | _, _ => false

def beqJL : List JVal → List JVal → Bool
  | [], [] => true
  | x :: r, y :: s => beqJ x y && beqJL r s
  | _, _ => false

def beqJF : List (String × JVal) → List (String × JVal) → Bool
  | [], [] => true
  | (k, v) :: r, (k2, v2) :: s => k == k2 && beqJ v v2 && beqJF r s
  | _, _ => false

end

mutual

theorem beqJ_refl : ∀ a, beqJ a a = true
  | .null => rfl
  | .jbool a => by simp [beqJ]
  | .jnum a => by simp [beqJ]
  | .jstr a => by simp [beqJ]
  | .jarr xs => by simp [beqJ, beqJL_refl xs]
  | .jobj fs => by simp [beqJ, beqJF_refl fs]

theorem beqJL_refl : ∀ xs, beqJL xs xs = true
  | [] => rfl
  | x :: r => by simp [beqJL, beqJ_refl x, beqJL_refl r]

theorem beqJF_refl : ∀ fs, beqJF fs fs = true
  | [] => rfl
  | (k, v) :: r => by simp [beqJF, beqJ_refl v, beqJF_refl r]

end

mutual

theorem eq_of_beqJ : ∀ a b, beqJ a b = true → a = b
  | .null, .null, _ => rfl
  | .jbool a, .jbool b, h => by
      have : a = b := by simpa [beqJ] using h
      rw [this]
  | .jnum a, .jnum b, h => by
      have : a = b := by simpa [beqJ] using h
      rw [this]
  | .jstr a, .jstr b, h => by
      have : a = b := by simpa [beqJ] using h
      rw [this]
  | .jarr xs, .jarr ys, h => by
      have : xs = ys := eq_of_beqJL xs ys (by simpa [beqJ] using h)
      rw [this]
  | .jobj fs, .jobj gs, h => by
      have : fs = gs := eq_of_beqJF fs gs (by simpa [beqJ] using h)
      rw [this]
  | .null, .jbool _, h => by simp [beqJ] at h
  | .null, .jnum _, h => by simp [beqJ] at h
  | .null, .jstr _, h => by simp [beqJ] at h
  | .null, .jarr _, h => by simp [beqJ] at h
  | .null, .jobj _, h => by simp [beqJ] at h
  | .jbool _, .null, h => by simp [beqJ] at h
  | .jbool _, .jnum _, h => by simp [beqJ] at h
  | .jbool _, .jstr _, h => by simp [beqJ] at h
  | .jbool _, .jarr _, h => by simp [beqJ] at h
  | .jbool _, .jobj _, h => by simp [beqJ] at h
  | .jnum _, .null, h => by simp [beqJ] at h
  | .jnum _, .jbool _, h => by simp [beqJ] at h
  | .jnum _, .jstr _, h => by simp [beqJ] at h
  | .jnum _, .jarr _, h => by simp [beqJ] at h
  | .jnum _, .jobj _, h => by simp [beqJ] at h
  | .jstr _, .null, h => by simp [beqJ] at h
  | .jstr _, .jbool _, h => by simp [beqJ] at h
  | .jstr _, .jnum _, h => by simp [beqJ] at h
  | .jstr _, .jarr _, h => by simp [beqJ] at h
  | .jstr _, .jobj _, h => by simp [beqJ] at h
  | .jarr _, .null, h => by simp [beqJ] at h
  | .jarr _, .jbool _, h => by simp [beqJ] at h
  | .jarr _, .jnum _, h => by simp [beqJ] at h
  | .jarr _, .jstr _, h => by simp [beqJ] at h
  | .jarr _, .jobj _, h => by simp [beqJ] at h
  | .jobj _, .null, h => by simp [beqJ] at h
  | .jobj _, .jbool _, h => by simp [beqJ] at h
  | .jobj _, .jnum _, h => by simp [beqJ] at h
  | .jobj _, .jstr _, h => by simp [beqJ] at h
  | .jobj _, .jarr _, h => by simp [beqJ] at h

theorem eq_of_beqJL : ∀ xs ys, beqJL xs ys = true → xs = ys
  | [], [], _ => rfl
  | [], _ :: _, h => by simp [beqJL] at h
  | _ :: _, [], h => by simp [beqJL] at h
  | x :: r, y :: s, h => by
      have h1 : beqJ x y = true ∧ beqJL r s = true := by simpa [beqJL] using h
      rw [eq_of_beqJ x y h1.1, eq_of_beqJL r s h1.2]

theorem eq_of_beqJF : ∀ fs gs, beqJF fs gs = true → fs = gs
  | [], [], _ => rfl
  | [], _ :: _, h => by simp [beqJF] at h
  | _ :: _, [], h => by simp [beqJF] at h
  | (k, v) :: r, (k2, v2) :: s, h => by
      have h1 : (k = k2 ∧ beqJ v v2 = true) ∧ beqJF r s = true := by simpa [beqJF] using h
      rw [h1.1.1, eq_of_beqJ v v2 h1.1.2, eq_of_beqJF r s h1.2]

end

instance : DecidableEq JVal := fun a b =>
  if h : beqJ a b = true then .isTrue (eq_of_beqJ a b h)
  else .isFalse (fun he => h (he ▸ beqJ_refl a))

/-- The kinds of Python exceptions the modelled core can raise. -/
inductive PyErr where
  | parseError
  | attributeError
  | typeError
  | keyError
  | indexError
  | recursionError
deriving DecidableEq

instance {ε α : Type} [DecidableEq ε] [DecidableEq α] : DecidableEq (Except ε α) := fun x y =>
  match x, y with
  | .ok a, .ok b =>
      if h : a = b then .isTrue (by rw [h]) else .isFalse (fun he => h (by cases he; rfl))
  | .error a, .error b =>
      if h : a = b then .isTrue (by rw [h]) else .isFalse (fun he => h (by cases he; rfl))
  | .ok _, .error _ => .isFalse (fun he => Except.noConfusion he)
  | .error _, .ok _ => .isFalse (fun he => Except.noConfusion he)

def isOkE {ε α : Type} : Except ε α → Bool
  | .ok _ => true
  | .error _ => false

/-! ### Python string primitives -/

/-- The whitespace characters stripped by the Python method `str.strip()` (ASCII part). -/
def isPySpaceChar (c : Char) : Bool :=
  c = ' ' || c = '\t' || c = '\n' || c = '\r' || c = '\x0b' || c = '\x0c'

/-- Python `s.strip()`. -/
def pyStrip (s : String) : String :=
  String.mk (((s.toList.dropWhile isPySpaceChar).reverse.dropWhile isPySpaceChar).reverse)

def titleGo (prevAlpha : Bool) : List Char → List Char
  | [] => []
  | c :: r =>
      if c.isAlpha then (if prevAlpha then c.toLower else c.toUpper) :: titleGo true r
      else c :: titleGo false r

/-- Python `s.title()`: the first letter of every maximal run of letters is
uppercased and the rest of the run lowercased (ASCII letters). -/
def pyTitle (s : String) : String :=
  String.mk (titleGo false s.toList)

def replGo (pat rep : List Char) : Nat → List Char → List Char
  | _, [] => []
  | 0, s => s
  | fuel + 1, c :: rest =>
      if pat.isPrefixOf (c :: rest) then
        rep ++ replGo pat rep fuel (List.drop (pat.length - 1) rest)
      else
        c :: replGo pat rep fuel rest

/-- Python `s.replace(pat, rep)` for a non-empty `pat`: every non-overlapping
occurrence, scanned left to right, is replaced.  The fuel is the length of
`s`, which every step strictly decreases, so it never runs out.  (The source
only calls `replace` with the literal patterns `"ur-"`, `"-"` and `"."`,
so the empty-pattern case of the Python `replace` is not modelled.) -/
def pyReplaceAll (s pat rep : String) : String :=
  if pat.isEmpty then s
  else String.mk (replGo pat.toList rep.toList s.length s.toList)

/-- Python `s.startswith(p)`. -/
def pyStartsWith (s p : String) : Bool := p.toList.isPrefixOf s.toList

/-- Python `s[n:]` for a non-negative `n`. -/
def pyDropN (s : String) (n : Nat) : String := String.mk (s.toList.drop n)

def listContainsSub (pat : List Char) : List Char → Bool
  | [] => pat.isEmpty
  | c :: r => pat.isPrefixOf (c :: r) || listContainsSub pat r

/-- Python `pat in s` on strings: substring containment. -/
def pyInStr (pat s : String) : Bool := listContainsSub pat.toList s.toList

/-- The characters that the Python method `str.splitlines()` treats as line boundaries. -/
def isLineBreakChar (c : Char) : Bool :=
  c = '\n' || c = '\r' || c = '\x0b' || c = '\x0c' || c = '\x1c' || c = '\x1d' ||
  c = '\x1e' || c = '\u0085' || c = '\u2028' || c = '\u2029'

def splitlinesGo : List Char → List Char → List (List Char)
  | acc, [] => if acc.isEmpty then [] else [acc.reverse]
  | acc, '\r' :: '\n' :: r => acc.reverse :: splitlinesGo [] r
  | acc, c :: r =>
      if isLineBreakChar c then acc.reverse :: splitlinesGo [] r
      else splitlinesGo (c :: acc) r

/-- Python `s.splitlines()`: `"\r\n"` counts as a single boundary, a trailing
boundary produces no empty final line, and `""` yields no lines. -/
def pySplitlines (s : String) : List String :=
  (splitlinesGo [] s.toList).map (fun l => String.mk l)

/-- Python `sep.join(parts)`. -/
def joinWith (sep : String) : List String → String
  | [] => ""
  | [x] => x
  | x :: r => x ++ sep ++ joinWith sep r

/-- `"  " * n`: the two-space indent repeated `n` times. -/
def indentStr : Nat → String
  | 0 => ""
  | n + 1 => "  " ++ indentStr n

/-! ### Python dict / iteration / truthiness on `JVal` -/

/-- Key lookup in a JSON object (Python dict access). -/
def lookupField : List (String × JVal) → String → Option JVal
  | [], _ => none
  | (k, v) :: r, key => if k = key then some v else lookupField r key

/-- Python `v.get(key, default)`: raises `AttributeError` unless `v` is a dict. -/
def pyGetD (v : JVal) (key : String) (dflt : JVal) : Except PyErr JVal :=
  match v with
  | .jobj fs => .ok ((lookupField fs key).getD dflt)
  | _ => .error .attributeError

/-- Python iteration `for x in v`: lists yield their elements, strings their
characters, dicts their keys; other values raise `TypeError`. -/
def pyIterE : JVal → Except PyErr (List JVal)
  | .jarr xs => .ok xs
  | .jstr s => .ok (s.toList.map (fun c => .jstr (String.mk [c])))
  | .jobj fs => .ok (fs.map (fun kv => .jstr kv.1))
  | _ => .error .typeError

/-- Python truthiness of a JSON value. -/
def pyTruthy : JVal → Bool
  | .null => false
  | .jbool b => b
  | .jnum n => decide (n ≠ 0)
  | .jstr s => !s.isEmpty
  | .jarr xs => !xs.isEmpty
  | .jobj fs => !fs.isEmpty

/-- Python `v[0]`. -/
def pyIndexFirst : JVal → Except PyErr JVal
  | .jarr (x :: _) => .ok x
  | .jarr [] => .error .indexError
  | .jstr s =>
      match s.toList with
      | c :: _ => .ok (.jstr (String.mk [c]))
      | [] => .error .indexError
  | .jobj _ => .error .keyError
  | _ => .error .typeError

mutual

/-- Python `repr` of a JSON value (string quoting simplified to bare quotes;
only scalar values reach `str`/`repr` in the documents the claims concern). -/
def pyReprVal : JVal → String
  | .null => "None"
  | .jbool true => "True"
  | .jbool false => "False"
  | .jnum n => toString n
  | .jstr s => "\x27" ++ s ++ "\x27"
  | .jarr xs => "[" ++ pyReprList xs ++ "]"
  | .jobj fs => "\x7b" ++ pyReprFields fs ++ "\x7d"

def pyReprList : List JVal → String
  | [] => ""
  | [x] => pyReprVal x
  | x :: r => pyReprVal x ++ ", " ++ pyReprList r

def pyReprFields : List (String × JVal) → String
  | [] => ""
  | [(k, v)] => "\x27" ++ k ++ "\x27: " ++ pyReprVal v
  | (k, v) :: r => "\x27" ++ k ++ "\x27: " ++ pyReprVal v ++ ", " ++ pyReprFields r

end

/-- Python `str(v)` of a JSON value. -/
def pyStrVal : JVal → String
  | .jstr s => s
  | .null => "None"
  | .jbool true => "True"
  | .jbool false => "False"
  | .jnum n => toString n
  | .jarr xs => "[" ++ pyReprList xs ++ "]"
  | .jobj fs => "\x7b" ++ pyReprFields fs ++ "\x7d"

/-! ### A size measure on JSON values

`jsize` bounds the recursion depth of the tree walk; it is used as the fuel
of `walkList` below, and proved sufficient. -/

mutual

def jsize : JVal → Nat
  | .null => 1
  | .jbool _ => 1
  | .jnum _ => 1
  | .jstr _ => 1
  | .jarr xs => 1 + jsizeL xs
  | .jobj fs => 1 + jsizeF fs

def jsizeL : List JVal → Nat
  | [] => 0
  | x :: r => jsize x + jsizeL r + 1

def jsizeF : List (String × JVal) → Nat
  | [] => 0
  | (_, v) :: r => jsize v + jsizeF r + 1

end

/-! ### The Label Resolver: `get_label` (src/converter2.py lines 22-41) -/

/-- One iteration of the fragment loop (lines 28-35): a fragment with a
`value` field contributes `str` of that value; otherwise a fragment with a
`translationKey` field contributes the key with the `"program-node-label."`
Python string-prefix removed when present, dots turned into spaces and the
result title-cased; a mapping with neither field contributes nothing.
Non-dict fragments reproduce the Python behaviour of `"value" in d` followed
by `d["value"]`: containment never raises on strings and lists, but the
subsequent indexing with a string key does; containment itself raises on
other types. -/
def fragStep (parts : List String) (d : JVal) : Except PyErr (List String) :=
  match d with
  | .jobj fs =>
      match lookupField fs "value" with
      | some v => .ok (parts ++ [pyStrVal v])
      | none =>
          match lookupField fs "translationKey" with
          | some (.jstr key) =>
              .ok (parts ++ [pyTitle (pyReplaceAll
                (if pyStartsWith key "program-node-label." then pyDropN key 19 else key)
                "." " ")])
          | some _ => .error .attributeError
          | none => .ok parts
  | .jstr s =>
      if pyInStr "value" s then .error .typeError
      else if pyInStr "translationKey" s then .error .typeError
      else .ok parts
  | .jarr xs =>
      if xs.any (fun x => beqJ x (.jstr "value")) then .error .typeError
      else if xs.any (fun x => beqJ x (.jstr "translationKey")) then .error .typeError
      else .ok parts
  | _ => .error .typeError

/-- The fragment loop itself, threading the accumulated `parts` list. -/
def fragFold : List JVal → List String → Except PyErr (List String)
  | [], parts => .ok parts
  | d :: rest, parts =>
      match fragStep parts d with
      | .error e => .error e
      | .ok parts2 => fragFold rest parts2

/-- Lines 38-41: `ctype = node.get("contributedNode", dict()).get("type")`,
then, when `ctype` is truthy, `ctype.replace("ur-", "").replace("-", " ").title()`,
else the sentinel `"Unknown"`. -/
def labelFromType (fs : List (String × JVal)) : Except PyErr String :=
  match (lookupField fs "contributedNode").getD (.jobj []) with
  | .jobj cfs =>
      match lookupField cfs "type" with
      | none => .ok "Unknown"
      | some t =>
          if pyTruthy t then
            match t with
            | .jstr s => .ok (pyTitle (pyReplaceAll (pyReplaceAll s "ur-" "") "-" " "))
            | _ => .error .attributeError
          else .ok "Unknown"
  | _ => .error .attributeError

/-- `get_label` (lines 22-41): a non-blank string `programLabel` is returned
stripped; a list `programLabel` is joined from its fragments and, when at
least one fragment matched, returned (join-then-strip); otherwise resolution
falls through to the `contributedNode.type` rule. -/
def get_label (node : JVal) : Except PyErr String :=
  match node with
  | .jobj fs =>
      match lookupField fs "programLabel" with
      | some (.jstr s) =>
          if pyStrip s = "" then labelFromType fs else .ok (pyStrip s)
      | some (.jarr l) =>
          match fragFold l [] with
          | .error e => .error e
          | .ok parts =>
              if parts.isEmpty then labelFromType fs
              else .ok (pyStrip (joinWith " " parts))
      | _ => labelFromType fs
  | _ => .error .attributeError

/-! ### The Tree Flattener: `_walk_pretty` (lines 43-48) -/

/-- `node.get("children", [])` followed by iteration over the result. -/
def childItems (node : JVal) : Except PyErr (List JVal) :=
  match node with
  | .jobj fs =>
      match lookupField fs "children" with
      | none => .ok []
      | some v => pyIterE v
  | _ => .error .attributeError

/-- The recursive walk, processing a worklist of nodes at a common depth:
for each node, emit `"  " * indent + get_label(node)`, then walk its
children at `indent + 1`, then the remaining nodes.  The fuel models
the Python recursion limit; `_walk_pretty` below supplies a fuel that is
proved sufficient for every well-formed tree. -/
def walkList (fuel : Nat) : List JVal → Nat → Except PyErr (List String)
  | [], _ => .ok []
  | node :: rest, indent =>
      match fuel with
      | 0 => .error .recursionError
      | f + 1 =>
          match get_label node with
          | .error e => .error e
          | .ok lbl =>
              match childItems node with
              | .error e => .error e
              | .ok xs =>
                  match walkList f xs (indent + 1) with
                  | .error e => .error e
                  | .ok childLines =>
                      match walkList f rest indent with
                      | .error e => .error e
                      | .ok restLines =>
                          .ok ((indentStr indent ++ lbl) :: childLines ++ restLines)

/-- `_walk_pretty(node, indent)`: the flat list of indented label lines. -/
def _walk_pretty (node : JVal) (indent : Nat) : Except PyErr (List String) :=
  walkList (jsize node + 1) [node] indent

/-! ### The Script Emitter: `urpx_to_script` (lines 51-58)

File writing is split off: the pure part returns the output file name
`stem + "_converted.script"` together with the text that is written to it. -/

def urpx_to_script (data : JVal) (stem : String) : Except PyErr (String × String) :=
  match pyGetD data "application" (.jobj []) with
  | .error e => .error e
  | .ok app =>
  match app with
  | .jobj afs =>
      let funcName := match lookupField afs "applicationInfo" with
        | some v => v
        | none => .jobj []
      match funcName with
      | .jobj ifs =>
          let nm := match lookupField ifs "name" with
            | some v => pyStrVal v
            | none => stem
          match pyGetD app "urscript" (.jobj []) with
          | .error e => .error e
          | .ok ur =>
          match pyGetD ur "script" (.jstr "") with
          | .error e => .error e
          | .ok scr =>
          match scr with
          | .jstr s =>
              .ok (stem ++ "_converted.script",
                joinWith "\n" (("def " ++ nm ++ "():") ::
                  "  global _hidden_verificationVariable = 0" ::
                  (pySplitlines s).map (fun ln => "  " ++ ln)))
          | _ => .error .attributeError
      | _ => .error .attributeError
  | _ => .error .attributeError

/-! ### The Program Reshaper and outline serializer: `urpx_to_txt` (lines 61-78) -/

/-- Line 65: one synthetic leaf per variable declaration, with `programLabel`
set to `var.get("name", "<anon>")`; `var.get` raises on a non-dict entry. -/
def varLeaf (var : JVal) : Except PyErr JVal :=
  match var with
  | .jobj vfs => .ok (.jobj [("programLabel", (lookupField vfs "name").getD (.jstr "<anon>"))])
  | _ => .error .attributeError

def varLeaves : List JVal → Except PyErr (List JVal)
  | [] => .ok []
  | v :: r =>
      match varLeaf v with
      | .error e => .error e
      | .ok leaf =>
          match varLeaves r with
          | .error e => .error e
          | .ok ls => .ok (leaf :: ls)

/-- The predicate of the generator on line 70:
`n.get("contributedNode", dict()).get("type") == "ur-functions"`. -/
def isFuncContainer (n : JVal) : Except PyErr Bool :=
  match n with
  | .jobj nfs =>
      match (lookupField nfs "contributedNode").getD (.jobj []) with
      | .jobj cfs =>
          match lookupField cfs "type" with
          | some (.jstr s) => .ok (decide (s = "ur-functions"))
          | _ => .ok false
      | _ => .error .attributeError
  | _ => .error .attributeError

/-- Lines 69-72: `next((n.get("children", []) for n in prog_children if ...), [])`.
The generator is lazy: nodes after the first match are never inspected. -/
def findFuncChildren : List JVal → Except PyErr JVal
  | [] => .ok (.jarr [])
  | n :: rest =>
      match isFuncContainer n with
      | .error e => .error e
      | .ok true =>
          match n with
          | .jobj nfs => .ok ((lookupField nfs "children").getD (.jarr []))
          | _ => .error .attributeError
      | .ok false => findFuncChildren rest

/-- Line 73: `func_nodes[0].get("children", []) if func_nodes else []`. -/
def mainChildren (funcNodes : JVal) : Except PyErr JVal :=
  if pyTruthy funcNodes then
    match pyIndexFirst funcNodes with
    | .error e => .error e
    | .ok first => pyGetD first "children" (.jarr [])
  else .ok (.jarr [])

/-- Lines 62-74: assembly of the synthetic Outline Tree.  The source reads
`data.get("program", dict())` twice (lines 64 and 68) with the same pure
result; the model evaluates it once. -/
def build_outline (data : JVal) : Except PyErr JVal :=
  match pyGetD data "program" (.jobj []) with
  | .error e => .error e
  | .ok prog =>
  match pyGetD prog "variableDeclarations" (.jarr []) with
  | .error e => .error e
  | .ok vdecls =>
  match pyIterE vdecls with
  | .error e => .error e
  | .ok vars =>
  match varLeaves vars with
  | .error e => .error e
  | .ok leaves =>
  match pyGetD prog "programContent" (.jobj []) with
  | .error e => .error e
  | .ok pc =>
  match pyGetD pc "children" (.jarr []) with
  | .error e => .error e
  | .ok pcChildren =>
  match pyIterE pcChildren with
  | .error e => .error e
  | .ok cs =>
  match findFuncChildren cs with
  | .error e => .error e
  | .ok funcNodes =>
  match mainChildren funcNodes with
  | .error e => .error e
  | .ok mains =>
      .ok (.jobj [("name", .jstr "Program"),
        ("children", .jarr
          [.jobj [("name", .jstr "Variables Setup"), ("children", .jarr leaves)],
           .jobj [("name", .jstr "Robot Program"), ("children", mains)]])])

/-- `urpx_to_txt` (lines 61-78): build the Outline Tree, flatten it, and
return the output file name `stem + "_converted.txt"` with the joined text. -/
def urpx_to_txt (data : JVal) (stem : String) : Except PyErr (String × String) :=
  match build_outline data with
  | .error e => .error e
  | .ok root =>
      match _walk_pretty root 0 with
      | .error e => .error e
      | .ok lines => .ok (stem ++ "_converted.txt", joinWith "\n" lines)

/-! ### The Conversion Job (lines 84-94)

A job holds the text and stem of the source file (the base name of the path without
extension) and the mode string.  JSON parsing is the standard-library `json.loads`,
which is standard-library code, not part of this repository; it is therefore
a parameter: any function returning `none` exactly on invalid JSON text. -/

structure Job where
  srcText : String
  stem : String
  mode : String

/-- `Job.run` (lines 90-94): parse the source text, then dispatch on
`mode == "script"`; every other mode takes the txt branch.  The result is
the output file name and its contents. -/
def Job.run (parse : String → Option JVal) (j : Job) : Except PyErr (String × String) :=
  match parse j.srcText with
  | none => .error .parseError
  | some data =>
      if j.mode = "script" then urpx_to_script data j.stem
      else urpx_to_txt data j.stem

/-- The destination directory, as a mapping from file names to contents. -/
def FileSys : Type := List (String × String)

/-- `Path.write_text`: create the file or overwrite an existing one. -/
def fsWrite (fs : FileSys) (nm content : String) : FileSys :=
  (fs.filter (fun p => decide (p.1 ≠ nm))) ++ [(nm, content)]

/-- `Job.run` including its filesystem effect: the returned name is written
into the destination directory on success; on failure the directory is
untouched. -/
def Job.runFS (parse : String → Option JVal) (j : Job) (fs : FileSys) :
    Except PyErr String × FileSys :=
  match Job.run parse j with
  | .error e => (.error e, fs)
  | .ok pr => (.ok pr.1, fsWrite fs pr.1 pr.2)

/-! ### Well-formed (structurally sparse but valid) documents

These decidable predicates capture §3 of the design: every field is
optional, and a field that is present has the type the data model gives it.
They delimit the documents over which the safety claim quantifies. -/

/-- A label fragment that the fragment loop handles without raising:
a mapping whose `translationKey`, when consulted (no `value` field), is a
string or absent.  The `value` field may hold any JSON value. -/
def WFfrag (d : JVal) : Bool :=
  match d with
  | .jobj fs =>
      (lookupField fs "value").isSome ||
        (match lookupField fs "translationKey" with
         | none => true
         | some (.jstr _) => true
         | some _ => false)
  | _ => false

def WFfrags : List JVal → Bool
  | [] => true
  | d :: r => WFfrag d && WFfrags r

/-- Inside a `contributedNode` mapping: `type`, when present, is a string. -/
def WFtypeField : String → JVal → Bool
  | "type", .jstr _ => true
  | "type", _ => false
  | _, _ => true

def WFtypeFields : List (String × JVal) → Bool
  | [] => true
  | (k, v) :: r => WFtypeField k v && WFtypeFields r

mutual

/-- A well-formed Program Node: a mapping whose `programLabel`, if a list,
holds well-formed fragments; whose `contributedNode`, if present, is a
mapping with a string-or-absent `type`; and whose `children`, if present,
is a list of well-formed Program Nodes. -/
def WFnode : JVal → Bool
  | .jobj fs => WFnodeFields fs
  | _ => false

def WFnodeFields : List (String × JVal) → Bool
  | [] => true
  | (k, v) :: r => WFnodeField k v && WFnodeFields r

def WFnodeField : String → JVal → Bool
  | "programLabel", .jarr l => WFfrags l
  | "programLabel", _ => true
  | "contributedNode", .jobj cfs => WFtypeFields cfs
  | "contributedNode", _ => false
  | "children", .jarr xs => WFnodes xs
  | "children", _ => false
  | _, _ => true

def WFnodes : List JVal → Bool
  | [] => true
  | x :: r => WFnode x && WFnodes r

end

def allFields (P : String → JVal → Bool) : List (String × JVal) → Bool
  | [] => true
  | (k, v) :: r => P k v && allFields P r

/-- Inside `urscript`: `script`, when present, is a string. -/
def WFscriptField : String → JVal → Bool
  | "script", .jstr _ => true
  | "script", _ => false
  | _, _ => true

/-- Inside `application`: `applicationInfo` and `urscript` are mappings when
present. -/
def WFappField : String → JVal → Bool
  | "applicationInfo", .jobj _ => true
  | "applicationInfo", _ => false
  | "urscript", .jobj ufs => allFields WFscriptField ufs
  | "urscript", _ => false
  | _, _ => true

/-- A variable declaration entry: a mapping whose `name`, when present, is a
string. -/
def WFvar (v : JVal) : Bool :=
  match v with
  | .jobj vfs =>
      match lookupField vfs "name" with
      | none => true
      | some (.jstr _) => true
      | some _ => false
  | _ => false

def WFvars : List JVal → Bool
  | [] => true
  | v :: r => WFvar v && WFvars r

/-- Inside `programContent`: `children`, when present, is a list of
well-formed Program Nodes. -/
def WFpcField : String → JVal → Bool
  | "children", .jarr xs => WFnodes xs
  | "children", _ => false
  | _, _ => true

/-- Inside `program`. -/
def WFprogField : String → JVal → Bool
  | "variableDeclarations", .jarr vs => WFvars vs
  | "variableDeclarations", _ => false
  | "programContent", .jobj pcfs => allFields WFpcField pcfs
  | "programContent", _ => false
  | _, _ => true

/-- Top-level fields of a Project Document. -/
def WFdocField : String → JVal → Bool
  | "application", .jobj afs => allFields WFappField afs
  | "application", _ => false
  | "program", .jobj pfs => allFields WFprogField pfs
  | "program", _ => false
  | _, _ => true

/-- A structurally sparse but valid Project Document. -/
def WFdoc : JVal → Bool
  | .jobj fs => allFields WFdocField fs
  | _ => false

/-! ### Lookup and size lemmas -/

theorem lookup_allFields (P : String → JVal → Bool) :
    ∀ fs, allFields P fs = true → ∀ k v, lookupField fs k = some v → P k v = true := by
  intro fs
  induction fs with
  | nil => intro _ k v h; simp [lookupField] at h
  | cons kv r ih =>
      obtain ⟨k1, v1⟩ := kv
      intro hall k v hlk
      rw [allFields, Bool.and_eq_true] at hall
      rw [lookupField] at hlk
      by_cases hk : k1 = k
      · rw [if_pos hk] at hlk
        injection hlk with hv
        subst hk; subst hv
        exact hall.1
      · rw [if_neg hk] at hlk
        exact ih hall.2 k v hlk

theorem lookup_WFnodeFields :
    ∀ fs, WFnodeFields fs = true → ∀ k v, lookupField fs k = some v → WFnodeField k v = true := by
  intro fs
  induction fs with
  | nil => intro _ k v h; simp [lookupField] at h
  | cons kv r ih =>
      obtain ⟨k1, v1⟩ := kv
      intro hall k v hlk
      rw [WFnodeFields, Bool.and_eq_true] at hall
      rw [lookupField] at hlk
      by_cases hk : k1 = k
      · rw [if_pos hk] at hlk
        injection hlk with hv
        subst hk; subst hv
        exact hall.1
      · rw [if_neg hk] at hlk
        exact ih hall.2 k v hlk

theorem lookup_WFtypeFields :
    ∀ fs, WFtypeFields fs = true → ∀ k v, lookupField fs k = some v → WFtypeField k v = true := by
  intro fs
  induction fs with
  | nil => intro _ k v h; simp [lookupField] at h
  | cons kv r ih =>
      obtain ⟨k1, v1⟩ := kv
      intro hall k v hlk
      rw [WFtypeFields, Bool.and_eq_true] at hall
      rw [lookupField] at hlk
      by_cases hk : k1 = k
      · rw [if_pos hk] at hlk
        injection hlk with hv
        subst hk; subst hv
        exact hall.1
      · rw [if_neg hk] at hlk
        exact ih hall.2 k v hlk

theorem jsize_pos : ∀ v, 1 ≤ jsize v := by
  intro v
  cases v <;> simp [jsize]

theorem lookup_jsizeF : ∀ fs k v, lookupField fs k = some v → jsize v ≤ jsizeF fs := by
  intro fs
  induction fs with
  | nil => intro k v h; simp [lookupField] at h
  | cons kv r ih =>
      obtain ⟨k1, v1⟩ := kv
      intro k v h
      rw [lookupField] at h
      by_cases hk : k1 = k
      · rw [if_pos hk] at h
        injection h with hv
        subst hv
        rw [jsizeF]
        omega
      · rw [if_neg hk] at h
        have := ih k v h
        rw [jsizeF]
        omega

/-! ### The fragment loop on well-formed fragments -/

/-- The text a single well-formed fragment contributes (the loop body of
lines 28-35, without its error cases). -/
def fragContrib (d : JVal) : List String :=
  match d with
  | .jobj fs =>
      match lookupField fs "value" with
      | some v => [pyStrVal v]
      | none =>
          match lookupField fs "translationKey" with
          | some (.jstr key) =>
              [pyTitle (pyReplaceAll
                (if pyStartsWith key "program-node-label." then pyDropN key 19 else key)
                "." " ")]
          | _ => []
  | _ => []

/-- The texts all fragments of a sequence contribute, in order. -/
def fragParts : List JVal → List String
  | [] => []
  | d :: r => fragContrib d ++ fragParts r

theorem fragFold_wf : ∀ l, WFfrags l = true →
    ∀ parts, fragFold l parts = .ok (parts ++ fragParts l) := by
  intro l
  induction l with
  | nil => intro _ parts; simp [fragFold, fragParts]
  | cons d r ih =>
      intro hwf parts
      rw [WFfrags, Bool.and_eq_true] at hwf
      have hstep : fragStep parts d = .ok (parts ++ fragContrib d) := by
        cases d with
        | jobj fs =>
            rw [WFfrag] at hwf
            cases hv : lookupField fs "value" with
            | some v => simp [fragStep, fragContrib, hv]
            | none =>
                cases ht : lookupField fs "translationKey" with
                | none => simp [fragStep, fragContrib, hv, ht]
                | some t =>
                    cases t with
                    | jstr key => simp [fragStep, fragContrib, hv, ht]
                    | null => simp [hv, ht] at hwf
                    | jbool b => simp [hv, ht] at hwf
                    | jnum n => simp [hv, ht] at hwf
                    | jarr xs => simp [hv, ht] at hwf
                    | jobj gs => simp [hv, ht] at hwf
        | null => simp [WFfrag] at hwf
        | jbool b => simp [WFfrag] at hwf
        | jnum n => simp [WFfrag] at hwf
        | jstr s => simp [WFfrag] at hwf
        | jarr xs => simp [WFfrag] at hwf
      have hrest := ih hwf.2 (parts ++ fragContrib d)
      rw [fragFold, hstep]
      simpa [fragParts, List.append_assoc] using hrest

/-! ### The Label Resolver never raises on well-formed nodes -/

theorem labelFromType_ok : ∀ fs, WFnodeFields fs = true →
    ∃ s, labelFromType fs = .ok s := by
  intro fs h
  cases hcn : lookupField fs "contributedNode" with
  | none => exact ⟨"Unknown", by simp [labelFromType, hcn, lookupField]⟩
  | some v =>
      have hf := lookup_WFnodeFields fs h "contributedNode" v hcn
      cases v with
      | jobj cfs =>
          cases ht : lookupField cfs "type" with
          | none => exact ⟨"Unknown", by simp [labelFromType, hcn, ht]⟩
          | some t =>
              have htf := lookup_WFtypeFields cfs (by simpa [WFnodeField] using hf) "type" t ht
              cases t with
              | jstr s =>
                  by_cases hp : pyTruthy (.jstr s) = true
                  · exact ⟨pyTitle (pyReplaceAll (pyReplaceAll s "ur-" "") "-" " "),
                      by simp [labelFromType, hcn, ht, hp]⟩
                  · exact ⟨"Unknown", by simp [labelFromType, hcn, ht, hp]⟩
              | null => simp [WFtypeField] at htf
              | jbool b => simp [WFtypeField] at htf
              | jnum n => simp [WFtypeField] at htf
              | jarr xs => simp [WFtypeField] at htf
              | jobj gs => simp [WFtypeField] at htf
      | null => simp [WFnodeField] at hf
      | jbool b => simp [WFnodeField] at hf
      | jnum n => simp [WFnodeField] at hf
      | jstr s => simp [WFnodeField] at hf
      | jarr xs => simp [WFnodeField] at hf

theorem get_label_ok : ∀ node, WFnode node = true → ∃ s, get_label node = .ok s := by
  intro node h
  cases node with
  | jobj fs =>
      have hfs : WFnodeFields fs = true := by simpa [WFnode] using h
      cases hpl : lookupField fs "programLabel" with
      | none =>
          obtain ⟨s, hs⟩ := labelFromType_ok fs hfs
          exact ⟨s, by simp [get_label, hpl, hs]⟩
      | some v =>
          have hf := lookup_WFnodeFields fs hfs "programLabel" v hpl
          cases v with
          | jstr s =>
              by_cases he : pyStrip s = ""
              · obtain ⟨t, ht⟩ := labelFromType_ok fs hfs
                exact ⟨t, by simp [get_label, hpl, he, ht]⟩
              · exact ⟨pyStrip s, by simp [get_label, hpl, he]⟩
          | jarr l =>
              have hfr : WFfrags l = true := by simpa [WFnodeField] using hf
              have hfold := fragFold_wf l hfr []
              cases hfp : fragParts l with
              | nil =>
                  obtain ⟨t, ht⟩ := labelFromType_ok fs hfs
                  refine ⟨t, ?_⟩
                  rw [hfp] at hfold
                  simp [get_label, hpl, hfold, ht]
              | cons a r =>
                  refine ⟨pyStrip (joinWith " " (a :: r)), ?_⟩
                  rw [hfp] at hfold
                  simp [get_label, hpl, hfold]
          | null =>
              obtain ⟨s, hs⟩ := labelFromType_ok fs hfs
              exact ⟨s, by simp [get_label, hpl, hs]⟩
          | jbool b =>
              obtain ⟨s, hs⟩ := labelFromType_ok fs hfs
              exact ⟨s, by simp [get_label, hpl, hs]⟩
          | jnum n =>
              obtain ⟨s, hs⟩ := labelFromType_ok fs hfs
              exact ⟨s, by simp [get_label, hpl, hs]⟩
          | jobj gs =>
              obtain ⟨s, hs⟩ := labelFromType_ok fs hfs
              exact ⟨s, by simp [get_label, hpl, hs]⟩
  | null => simp [WFnode] at h
  | jbool b => simp [WFnode] at h
  | jnum n => simp [WFnode] at h
  | jstr s => simp [WFnode] at h
  | jarr xs => simp [WFnode] at h

/-! ### The Tree Flattener on well-formed trees -/

/-- The resolved label of a node, defaulting where resolution would raise
(never reached on well-formed nodes). -/
def labelOrDefault (node : JVal) : String :=
  match get_label node with
  | .ok s => s
  | .error _ => "Unknown"

/-- The children list of a well-formed node. -/
def pureChildren (node : JVal) : List JVal :=
  match node with
  | .jobj fs =>
      match lookupField fs "children" with
      | some (.jarr xs) => xs
      | _ => []
  | _ => []

/-- The depth-first preorder flattening the specification describes: one
line per node, the line of a node before the lines of its children, children in order,
each child one indent level deeper. -/
def flattenNodes (fuel : Nat) : List JVal → Nat → List String
  | [], _ => []
  | node :: rest, depth =>
      match fuel with
      | 0 => []
      | f + 1 =>
          (indentStr depth ++ labelOrDefault node) ::
            (flattenNodes f (pureChildren node) (depth + 1) ++ flattenNodes f rest depth)

def flattenSpec (node : JVal) (depth : Nat) : List String :=
  flattenNodes (jsize node + 1) [node] depth

theorem childItems_wf : ∀ node, WFnode node = true →
    ∃ xs, childItems node = .ok xs ∧ WFnodes xs = true ∧ jsizeL xs < jsize node ∧
      pureChildren node = xs := by
  intro node hwf
  cases node with
  | jobj fs =>
      have hfs : WFnodeFields fs = true := by simpa [WFnode] using hwf
      cases hlk : lookupField fs "children" with
      | none =>
          refine ⟨[], by simp [childItems, hlk], rfl, ?_, by simp [pureChildren, hlk]⟩
          simp [jsize, jsizeL]
      | some v =>
          have hf := lookup_WFnodeFields fs hfs "children" v hlk
          cases v with
          | jarr xs =>
              have hx : WFnodes xs = true := by simpa [WFnodeField] using hf
              refine ⟨xs, by simp [childItems, hlk, pyIterE], hx, ?_,
                by simp [pureChildren, hlk]⟩
              have hsz := lookup_jsizeF fs "children" (.jarr xs) hlk
              rw [jsize] at hsz
              rw [jsize]
              omega
          | null => simp [WFnodeField] at hf
          | jbool b => simp [WFnodeField] at hf
          | jnum n => simp [WFnodeField] at hf
          | jstr s => simp [WFnodeField] at hf
          | jobj gs => simp [WFnodeField] at hf
  | null => simp [WFnode] at hwf
  | jbool b => simp [WFnode] at hwf
  | jnum n => simp [WFnode] at hwf
  | jstr s => simp [WFnode] at hwf
  | jarr xs => simp [WFnode] at hwf

theorem walkList_eq_flatten : ∀ fuel l depth, jsizeL l ≤ fuel → WFnodes l = true →
    walkList fuel l depth = .ok (flattenNodes fuel l depth) := by
  intro fuel
  induction fuel with
  | zero =>
      intro l depth hsz hwf
      cases l with
      | nil => rfl
      | cons n r => rw [jsizeL] at hsz; omega
  | succ f ih =>
      intro l depth hsz hwf
      cases l with
      | nil => rfl
      | cons n r =>
          rw [jsizeL] at hsz
          rw [WFnodes, Bool.and_eq_true] at hwf
          obtain ⟨s, hs⟩ := get_label_ok n hwf.1
          obtain ⟨xs, hxs, hxw, hxsz, hpc⟩ := childItems_wf n hwf.1
          have h1 : jsizeL xs ≤ f := by omega
          have h2 : jsizeL r ≤ f := by
            have := jsize_pos n
            omega
          have e1 := ih xs (depth + 1) h1 hxw
          have e2 := ih r depth h2 hwf.2
          have hl : labelOrDefault n = s := by simp [labelOrDefault, hs]
          simp [walkList, flattenNodes, hs, hxs, e1, e2, hl, hpc]

/-- On a well-formed node tree, the walk never raises and produces exactly
the specified preorder flattening; the fuel `jsize node + 1` is sufficient. -/
theorem walk_pretty_wf : ∀ node depth, WFnode node = true →
    _walk_pretty node depth = .ok (flattenSpec node depth) := by
  intro node depth h
  have : jsizeL [node] ≤ jsize node + 1 := by simp [jsizeL]
  have hw : WFnodes [node] = true := by simp [WFnodes, h]
  exact walkList_eq_flatten (jsize node + 1) [node] depth this hw

/-! ### The Program Reshaper on well-formed documents -/

/-- The synthetic leaf the reshaper creates for one variable declaration. -/
def varLeafSpec (v : JVal) : JVal :=
  match v with
  | .jobj vfs => .jobj [("programLabel", (lookupField vfs "name").getD (.jstr "<anon>"))]
  | _ => .null

/-- `data.get("program", dict())` as a pure accessor on mappings. -/
def progOf (data : JVal) : JVal :=
  match data with
  | .jobj dfs => (lookupField dfs "program").getD (.jobj [])
  | _ => .null

/-- The variable-declaration entries of a document (empty when absent). -/
def specVarDecls (data : JVal) : List JVal :=
  match progOf data with
  | .jobj pfs =>
      match lookupField pfs "variableDeclarations" with
      | some (.jarr vs) => vs
      | _ => []
  | _ => []

/-- `program.programContent.children` of a document (empty when absent). -/
def specProgChildren (data : JVal) : List JVal :=
  match progOf data with
  | .jobj pfs =>
      match lookupField pfs "programContent" with
      | some (.jobj pcfs) =>
          match lookupField pcfs "children" with
          | some (.jarr cs) => cs
          | _ => []
      | _ => []
  | _ => []

/-- The Outline Tree the reshaper assembles, as a function of the variable
entries and the main-program children value. -/
def outlineOf (vs : List JVal) (mains : JVal) : JVal :=
  .jobj [("name", .jstr "Program"),
    ("children", .jarr
      [.jobj [("name", .jstr "Variables Setup"), ("children", .jarr (vs.map varLeafSpec))],
       .jobj [("name", .jstr "Robot Program"), ("children", mains)]])]

theorem varLeaves_wf : ∀ vs, WFvars vs = true → varLeaves vs = .ok (vs.map varLeafSpec) := by
  intro vs
  induction vs with
  | nil => intro _; rfl
  | cons v r ih =>
      intro hwf
      rw [WFvars, Bool.and_eq_true] at hwf
      have hv : varLeaf v = .ok (varLeafSpec v) := by
        cases v with
        | jobj vfs => simp [varLeaf, varLeafSpec]
        | null => simp [WFvar] at hwf
        | jbool b => exact absurd hwf.1 (by simp [WFvar])
        | jnum n => exact absurd hwf.1 (by simp [WFvar])
        | jstr s => exact absurd hwf.1 (by simp [WFvar])
        | jarr xs => exact absurd hwf.1 (by simp [WFvar])
      rw [varLeaves, hv, ih hwf.2]
      simp

theorem varLeafSpec_wfnode : ∀ v, WFvar v = true → WFnode (varLeafSpec v) = true := by
  intro v hv
  cases v with
  | jobj vfs =>
      rw [WFvar] at hv
      cases hn : lookupField vfs "name" with
      | none => simp [varLeafSpec, hn, WFnode, WFnodeFields, WFnodeField]
      | some w =>
          rw [hn] at hv
          cases w with
          | jstr s => simp [varLeafSpec, hn, WFnode, WFnodeFields, WFnodeField]
          | null => simp at hv
          | jbool b => simp at hv
          | jnum n => simp at hv
          | jarr xs => simp at hv
          | jobj gs => simp at hv
  | null => simp [WFvar] at hv
  | jbool b => simp [WFvar] at hv
  | jnum n => simp [WFvar] at hv
  | jstr s => simp [WFvar] at hv
  | jarr xs => simp [WFvar] at hv

theorem varLeaves_wfnodes : ∀ vs, WFvars vs = true → WFnodes (vs.map varLeafSpec) = true := by
  intro vs
  induction vs with
  | nil => intro _; rfl
  | cons v r ih =>
      intro hwf
      rw [WFvars, Bool.and_eq_true] at hwf
      simp only [List.map]
      rw [WFnodes, Bool.and_eq_true]
      exact ⟨varLeafSpec_wfnode v hwf.1, ih hwf.2⟩

theorem findFunc_wf : ∀ cs, WFnodes cs = true →
    ∃ xs, findFuncChildren cs = .ok (.jarr xs) ∧ WFnodes xs = true := by
  intro cs
  induction cs with
  | nil => intro _; exact ⟨[], rfl, rfl⟩
  | cons n r ih =>
      intro hwf
      rw [WFnodes, Bool.and_eq_true] at hwf
      obtain ⟨hn, hr⟩ := hwf
      cases n with
      | jobj nfs =>
          have hfs : WFnodeFields nfs = true := by simpa [WFnode] using hn
          cases hcn : lookupField nfs "contributedNode" with
          | none =>
              obtain ⟨xs, hx1, hx2⟩ := ih hr
              exact ⟨xs, by simp [findFuncChildren, isFuncContainer, hcn, lookupField, hx1], hx2⟩
          | some v =>
              have hf := lookup_WFnodeFields nfs hfs "contributedNode" v hcn
              cases v with
              | jobj cfs =>
                  cases ht : lookupField cfs "type" with
                  | none =>
                      obtain ⟨xs, hx1, hx2⟩ := ih hr
                      exact ⟨xs, by simp [findFuncChildren, isFuncContainer, hcn, ht, hx1], hx2⟩
                  | some t =>
                      cases t with
                      | jstr s =>
                          by_cases hs : s = "ur-functions"
                          · cases hch : lookupField nfs "children" with
                            | none =>
                                refine ⟨[], ?_, rfl⟩
                                simp [findFuncChildren, isFuncContainer, hcn, ht, hs, hch]
                            | some w =>
                                have hfw := lookup_WFnodeFields nfs hfs "children" w hch
                                cases w with
                                | jarr xs =>
                                    refine ⟨xs, ?_, by simpa [WFnodeField] using hfw⟩
                                    simp [findFuncChildren, isFuncContainer, hcn, ht, hs, hch]
                                | null => simp [WFnodeField] at hfw
                                | jbool b => simp [WFnodeField] at hfw
                                | jnum m => simp [WFnodeField] at hfw
                                | jstr u => simp [WFnodeField] at hfw
                                | jobj gs => simp [WFnodeField] at hfw
                          · obtain ⟨xs, hx1, hx2⟩ := ih hr
                            exact ⟨xs,
                              by simp [findFuncChildren, isFuncContainer, hcn, ht, hs, hx1], hx2⟩
                      | null =>
                          obtain ⟨xs, hx1, hx2⟩ := ih hr
                          exact ⟨xs, by simp [findFuncChildren, isFuncContainer, hcn, ht, hx1], hx2⟩
                      | jbool b =>
                          obtain ⟨xs, hx1, hx2⟩ := ih hr
                          exact ⟨xs, by simp [findFuncChildren, isFuncContainer, hcn, ht, hx1], hx2⟩
                      | jnum m =>
                          obtain ⟨xs, hx1, hx2⟩ := ih hr
                          exact ⟨xs, by simp [findFuncChildren, isFuncContainer, hcn, ht, hx1], hx2⟩
                      | jarr ys =>
                          obtain ⟨xs, hx1, hx2⟩ := ih hr
                          exact ⟨xs, by simp [findFuncChildren, isFuncContainer, hcn, ht, hx1], hx2⟩
                      | jobj gs =>
                          obtain ⟨xs, hx1, hx2⟩ := ih hr
                          exact ⟨xs, by simp [findFuncChildren, isFuncContainer, hcn, ht, hx1], hx2⟩
              | null => simp [WFnodeField] at hf
              | jbool b => simp [WFnodeField] at hf
              | jnum m => simp [WFnodeField] at hf
              | jstr u => simp [WFnodeField] at hf
              | jarr ys => simp [WFnodeField] at hf
      | null => simp [WFnode] at hn
      | jbool b => simp [WFnode] at hn
      | jnum m => simp [WFnode] at hn
      | jstr s => simp [WFnode] at hn
      | jarr ys => simp [WFnode] at hn

theorem nodeChildren_wf : ∀ n, WFnode n = true →
    ∃ ms, pyGetD n "children" (.jarr []) = .ok (.jarr ms) ∧ WFnodes ms = true := by
  intro n hn
  cases n with
  | jobj nfs =>
      have hfs : WFnodeFields nfs = true := by simpa [WFnode] using hn
      cases hch : lookupField nfs "children" with
      | none => exact ⟨[], by simp [pyGetD, hch], rfl⟩
      | some w =>
          have hfw := lookup_WFnodeFields nfs hfs "children" w hch
          cases w with
          | jarr xs => exact ⟨xs, by simp [pyGetD, hch], by simpa [WFnodeField] using hfw⟩
          | null => simp [WFnodeField] at hfw
          | jbool b => simp [WFnodeField] at hfw
          | jnum m => simp [WFnodeField] at hfw
          | jstr u => simp [WFnodeField] at hfw
          | jobj gs => simp [WFnodeField] at hfw
  | null => simp [WFnode] at hn
  | jbool b => simp [WFnode] at hn
  | jnum m => simp [WFnode] at hn
  | jstr s => simp [WFnode] at hn
  | jarr ys => simp [WFnode] at hn

theorem mainChildren_wf : ∀ xs, WFnodes xs = true →
    ∃ ms, mainChildren (.jarr xs) = .ok (.jarr ms) ∧ WFnodes ms = true := by
  intro xs hxs
  cases xs with
  | nil => exact ⟨[], rfl, rfl⟩
  | cons y ys =>
      rw [WFnodes, Bool.and_eq_true] at hxs
      obtain ⟨ms, h1, h2⟩ := nodeChildren_wf y hxs.1
      refine ⟨ms, ?_, h2⟩
      simp [mainChildren, pyTruthy, pyIndexFirst, h1]

theorem build_outline_wf : ∀ data, WFdoc data = true →
    ∃ xs ms, findFuncChildren (specProgChildren data) = .ok (.jarr xs) ∧
      mainChildren (.jarr xs) = .ok (.jarr ms) ∧ WFnodes ms = true ∧
      WFvars (specVarDecls data) = true ∧
      build_outline data = .ok (outlineOf (specVarDecls data) (.jarr ms)) := by
  intro data hdoc
  cases data with
  | jobj dfs =>
      have hall : allFields WFdocField dfs = true := by simpa [WFdoc] using hdoc
      have hprog : ∃ pfs, (lookupField dfs "program").getD (.jobj []) = .jobj pfs ∧
          allFields WFprogField pfs = true := by
        cases hp : lookupField dfs "program" with
        | none => exact ⟨[], by simp, rfl⟩
        | some v =>
            have hf := lookup_allFields WFdocField dfs hall "program" v hp
            cases v with
            | jobj pfs => exact ⟨pfs, by simp, by simpa [WFdocField] using hf⟩
            | null => simp [WFdocField] at hf
            | jbool b => simp [WFdocField] at hf
            | jnum n => simp [WFdocField] at hf
            | jstr s => simp [WFdocField] at hf
            | jarr ys => simp [WFdocField] at hf
      obtain ⟨pfs, hpf, hpwf⟩ := hprog
      have hvars : ∃ vs, (lookupField pfs "variableDeclarations").getD (.jarr []) = .jarr vs ∧
          WFvars vs = true ∧ specVarDecls (.jobj dfs) = vs := by
        cases hv : lookupField pfs "variableDeclarations" with
        | none => exact ⟨[], by simp, rfl, by simp [specVarDecls, progOf, hpf, hv]⟩
        | some w =>
            have hf := lookup_allFields WFprogField pfs hpwf "variableDeclarations" w hv
            cases w with
            | jarr vs =>
                exact ⟨vs, by simp, by simpa [WFprogField] using hf,
                  by simp [specVarDecls, progOf, hpf, hv]⟩
            | null => simp [WFprogField] at hf
            | jbool b => simp [WFprogField] at hf
            | jnum n => simp [WFprogField] at hf
            | jstr s => simp [WFprogField] at hf
            | jobj gs => simp [WFprogField] at hf
      obtain ⟨vs, hv1, hv2, hv3⟩ := hvars
      have hpc : ∃ pcv cs, (lookupField pfs "programContent").getD (.jobj []) = pcv ∧
          pyGetD pcv "children" (.jarr []) = .ok (.jarr cs) ∧ WFnodes cs = true ∧
          specProgChildren (.jobj dfs) = cs := by
        cases hc : lookupField pfs "programContent" with
        | none =>
            exact ⟨.jobj [], [], by simp, by simp [pyGetD, lookupField], rfl,
              by simp [specProgChildren, progOf, hpf, hc]⟩
        | some w =>
            have hf := lookup_allFields WFprogField pfs hpwf "programContent" w hc
            cases w with
            | jobj pcfs =>
                have hpcf : allFields WFpcField pcfs = true := by simpa [WFprogField] using hf
                cases hcc : lookupField pcfs "children" with
                | none =>
                    exact ⟨.jobj pcfs, [], by simp, by simp [pyGetD, hcc], rfl,
                      by simp [specProgChildren, progOf, hpf, hc, hcc]⟩
                | some u =>
                    have hfu := lookup_allFields WFpcField pcfs hpcf "children" u hcc
                    cases u with
                    | jarr cs =>
                        exact ⟨.jobj pcfs, cs, by simp, by simp [pyGetD, hcc],
                          by simpa [WFpcField] using hfu,
                          by simp [specProgChildren, progOf, hpf, hc, hcc]⟩
                    | null => simp [WFpcField] at hfu
                    | jbool b => simp [WFpcField] at hfu
                    | jnum n => simp [WFpcField] at hfu
                    | jstr s => simp [WFpcField] at hfu
                    | jobj gs => simp [WFpcField] at hfu
            | null => simp [WFprogField] at hf
            | jbool b => simp [WFprogField] at hf
            | jnum n => simp [WFprogField] at hf
            | jstr s => simp [WFprogField] at hf
            | jarr ys => simp [WFprogField] at hf
      obtain ⟨pcv, cs, hc1, hc2, hc3, hc4⟩ := hpc
      obtain ⟨xs, hx1, hx2⟩ := findFunc_wf cs hc3
      obtain ⟨ms, hm1, hm2⟩ := mainChildren_wf xs hx2
      have hleaves := varLeaves_wf vs hv2
      refine ⟨xs, ms, by rw [hc4]; exact hx1, hm1, hm2, by rw [hv3]; exact hv2, ?_⟩
      rw [hv3]
      have e1 : pyGetD (.jobj dfs) "program" (.jobj []) = .ok (.jobj pfs) := by
        simp [pyGetD, hpf]
      have e2 : pyGetD (.jobj pfs) "variableDeclarations" (.jarr []) = .ok (.jarr vs) := by
        simp [pyGetD, hv1]
      have e3 : pyGetD (.jobj pfs) "programContent" (.jobj []) = .ok pcv := by
        simp [pyGetD, hc1]
      simp [build_outline, e1, e2, pyIterE, hleaves, e3, hc2, hx1, hm1, outlineOf]
  | null => simp [WFdoc] at hdoc
  | jbool b => simp [WFdoc] at hdoc
  | jnum n => simp [WFdoc] at hdoc
  | jstr s => simp [WFdoc] at hdoc
  | jarr ys => simp [WFdoc] at hdoc

theorem outlineOf_wfnode : ∀ vs ms, WFvars vs = true → WFnodes ms = true →
    WFnode (outlineOf vs (.jarr ms)) = true := by
  intro vs ms hv hm
  have hl := varLeaves_wfnodes vs hv
  simp [outlineOf, WFnode, WFnodeFields, WFnodeField, WFnodes, hl, hm]

/-! ### The Script Emitter -/

/-- An optional field that, when present, is a string. -/
def strOrAbsent (o : Option JVal) : Bool :=
  match o with
  | none => true
  | some (.jstr _) => true
  | some _ => false

/-- `applicationInfo`: a mapping with a string-or-absent `name`, or absent. -/
def WFnameIn (ai : Option JVal) : Bool :=
  match ai with
  | none => true
  | some (.jobj ifs) => strOrAbsent (lookupField ifs "name")
  | some _ => false

/-- `urscript`: a mapping with a string-or-absent `script`, or absent. -/
def WFscriptIn (u : Option JVal) : Bool :=
  match u with
  | none => true
  | some (.jobj ufs) => strOrAbsent (lookupField ufs "script")
  | some _ => false

/-- `application`: a mapping with the two subtrees above, or absent. -/
def WFappOf (a : Option JVal) : Bool :=
  match a with
  | none => true
  | some (.jobj afs) =>
      WFnameIn (lookupField afs "applicationInfo") && WFscriptIn (lookupField afs "urscript")
  | some _ => false

/-- A document whose `application` subtree is well-typed where present
(the §3 typing of the script-relevant fields; each field may be absent). -/
def WFscriptDoc (data : JVal) : Bool :=
  match data with
  | .jobj dfs => WFappOf (lookupField dfs "application")
  | _ => false

/-- §4.4 step 1: the function name is `application.applicationInfo.name`
when present, else the fallback (the stem of the input file). -/
def specScriptName (data : JVal) (fallback : String) : String :=
  match data with
  | .jobj dfs =>
      match lookupField dfs "application" with
      | some (.jobj afs) =>
          match lookupField afs "applicationInfo" with
          | some (.jobj ifs) =>
              match lookupField ifs "name" with
              | some (.jstr nm) => nm
              | _ => fallback
          | _ => fallback
      | _ => fallback
  | _ => fallback

/-- §4.4 step 4: the embedded script body, empty when absent. -/
def specScriptBody (data : JVal) : String :=
  match data with
  | .jobj dfs =>
      match lookupField dfs "application" with
      | some (.jobj afs) =>
          match lookupField afs "urscript" with
          | some (.jobj ufs) =>
              match lookupField ufs "script" with
              | some (.jstr sc) => sc
              | _ => ""
          | _ => ""
      | _ => ""
  | _ => ""

/-- §4.4: the emitted text, per the words of the specification: the header line,
the hidden-verification-variable boilerplate line, then every line of the
script body prefixed with two spaces, all joined by newlines. -/
def specEmit (data : JVal) (stem : String) : String :=
  joinWith "\n" (("def " ++ specScriptName data stem ++ "():") ::
    "  global _hidden_verificationVariable = 0" ::
    (pySplitlines (specScriptBody data)).map (fun ln => "  " ++ ln))

theorem urpx_to_script_spec : ∀ data stem, WFscriptDoc data = true →
    urpx_to_script data stem = .ok (stem ++ "_converted.script", specEmit data stem) := by
  intro data stem hwf
  cases data with
  | jobj dfs =>
      have happ : WFappOf (lookupField dfs "application") = true := hwf
      cases ha : lookupField dfs "application" with
      | none =>
          simp [urpx_to_script, pyGetD, ha, lookupField, specEmit, specScriptName,
            specScriptBody]
      | some v =>
          rw [ha] at happ
          cases v with
          | jobj afs =>
              have happ1 : (WFnameIn (lookupField afs "applicationInfo") &&
                  WFscriptIn (lookupField afs "urscript")) = true := happ
              have happ2 : WFnameIn (lookupField afs "applicationInfo") = true ∧
                  WFscriptIn (lookupField afs "urscript") = true := by
                rw [Bool.and_eq_true] at happ1
                exact happ1
              have hwfN := happ2.1
              have hwfS := happ2.2
              have e1 : pyGetD (.jobj dfs) "application" (.jobj []) = .ok (.jobj afs) := by
                simp [pyGetD, ha]
              have hscr : ∃ sc, (lookupField afs "urscript").getD (.jobj []) = .jobj sc ∧
                  (lookupField sc "script").getD (.jstr "") =
                    .jstr (specScriptBody (.jobj dfs)) := by
                cases hu : lookupField afs "urscript" with
                | none =>
                    exact ⟨[], by simp, by simp [lookupField, specScriptBody, ha, hu]⟩
                | some w =>
                    rw [hu] at hwfS
                    cases w with
                    | jobj ufs =>
                        have hstr : strOrAbsent (lookupField ufs "script") = true := hwfS
                        refine ⟨ufs, by simp, ?_⟩
                        cases hs : lookupField ufs "script" with
                        | none => simp [specScriptBody, ha, hu, hs]
                        | some u =>
                            rw [hs] at hstr
                            cases u with
                            | jstr sc => simp [specScriptBody, ha, hu, hs]
                            | null => exact absurd hstr (by decide)
                            | jbool b => exact absurd hstr (by simp [strOrAbsent])
                            | jnum n => exact absurd hstr (by simp [strOrAbsent])
                            | jarr ys => exact absurd hstr (by simp [strOrAbsent])
                            | jobj gs => exact absurd hstr (by simp [strOrAbsent])
                    | null => exact absurd hwfS (by decide)
                    | jbool b => exact absurd hwfS (by simp [WFscriptIn])
                    | jnum n => exact absurd hwfS (by simp [WFscriptIn])
                    | jstr s => exact absurd hwfS (by simp [WFscriptIn])
                    | jarr ys => exact absurd hwfS (by simp [WFscriptIn])
              obtain ⟨sc, hsc1, hsc2⟩ := hscr
              have e2 : pyGetD (.jobj afs) "urscript" (.jobj []) = .ok (.jobj sc) := by
                simp [pyGetD, hsc1]
              have e3 : pyGetD (.jobj sc) "script" (.jstr "") =
                  .ok (.jstr (specScriptBody (.jobj dfs))) := by
                simp [pyGetD, hsc2]
              cases hai : lookupField afs "applicationInfo" with
              | none =>
                  have hname : specScriptName (.jobj dfs) stem = stem := by
                    simp [specScriptName, ha, hai]
                  simp [urpx_to_script, e1, hai, e2, e3, hname, specEmit, lookupField]
              | some w =>
                  rw [hai] at hwfN
                  cases w with
                  | jobj ifs =>
                      have hstr : strOrAbsent (lookupField ifs "name") = true := hwfN
                      have hname : (match lookupField ifs "name" with
                          | some v2 => pyStrVal v2
                          | none => stem) = specScriptName (.jobj dfs) stem := by
                        cases hn : lookupField ifs "name" with
                        | none => simp [specScriptName, ha, hai, hn]
                        | some u =>
                            rw [hn] at hstr
                            cases u with
                            | jstr nm => simp [specScriptName, ha, hai, hn, pyStrVal]
                            | null => exact absurd hstr (by decide)
                            | jbool b => exact absurd hstr (by simp [strOrAbsent])
                            | jnum n => exact absurd hstr (by simp [strOrAbsent])
                            | jarr ys => exact absurd hstr (by simp [strOrAbsent])
                            | jobj gs => exact absurd hstr (by simp [strOrAbsent])
                      simp [urpx_to_script, e1, hai, e2, e3, hname, specEmit]
                  | null => exact absurd hwfN (by decide)
                  | jbool b => exact absurd hwfN (by simp [WFnameIn])
                  | jnum n => exact absurd hwfN (by simp [WFnameIn])
                  | jstr s => exact absurd hwfN (by simp [WFnameIn])
                  | jarr ys => exact absurd hwfN (by simp [WFnameIn])
          | null => exact absurd happ (by decide)
          | jbool b => exact absurd happ (by simp [WFappOf])
          | jnum n => exact absurd happ (by simp [WFappOf])
          | jstr s => exact absurd happ (by simp [WFappOf])
          | jarr ys => exact absurd happ (by simp [WFappOf])
  | null => simp [WFscriptDoc] at hwf
  | jbool b => simp [WFscriptDoc] at hwf
  | jnum n => simp [WFscriptDoc] at hwf
  | jstr s => simp [WFscriptDoc] at hwf
  | jarr ys => simp [WFscriptDoc] at hwf

theorem urpx_to_script_okb : ∀ data stem, WFdoc data = true →
    isOkE (urpx_to_script data stem) = true := by
  intro data stem hdoc
  cases data with
  | jobj dfs =>
      have hall : allFields WFdocField dfs = true := by simpa [WFdoc] using hdoc
      cases ha : lookupField dfs "application" with
      | none => simp [urpx_to_script, pyGetD, ha, lookupField, isOkE]
      | some v =>
          have hf := lookup_allFields WFdocField dfs hall "application" v ha
          cases v with
          | jobj afs =>
              have hafs : allFields WFappField afs = true := by simpa [WFdocField] using hf
              have e1 : pyGetD (.jobj dfs) "application" (.jobj []) = .ok (.jobj afs) := by
                simp [pyGetD, ha]
              have hai2 : ∃ ifs, (match lookupField afs "applicationInfo" with
                  | some v2 => v2
                  | none => (.jobj [] : JVal)) = .jobj ifs := by
                cases hai : lookupField afs "applicationInfo" with
                | none => exact ⟨[], by simp⟩
                | some w =>
                    have hfa := lookup_allFields WFappField afs hafs "applicationInfo" w hai
                    cases w with
                    | jobj ifs => exact ⟨ifs, by simp⟩
                    | null => simp [WFappField] at hfa
                    | jbool b => simp [WFappField] at hfa
                    | jnum n => simp [WFappField] at hfa
                    | jstr s => simp [WFappField] at hfa
                    | jarr ys => simp [WFappField] at hfa
              obtain ⟨ifs, hifs⟩ := hai2
              have hscr : ∃ ufs sc, (lookupField afs "urscript").getD (.jobj []) = .jobj ufs ∧
                  (lookupField ufs "script").getD (.jstr "") = .jstr sc := by
                cases hu : lookupField afs "urscript" with
                | none => exact ⟨[], "", by simp, by simp [lookupField]⟩
                | some w =>
                    have hfu := lookup_allFields WFappField afs hafs "urscript" w hu
                    cases w with
                    | jobj ufs =>
                        have hsf : allFields WFscriptField ufs = true := by
                          simpa [WFappField] using hfu
                        cases hs : lookupField ufs "script" with
                        | none => exact ⟨ufs, "", by simp, by simp [hs]⟩
                        | some u =>
                            have hfs2 := lookup_allFields WFscriptField ufs hsf "script" u hs
                            cases u with
                            | jstr sc => exact ⟨ufs, sc, by simp, by simp [hs]⟩
                            | null => simp [WFscriptField] at hfs2
                            | jbool b => simp [WFscriptField] at hfs2
                            | jnum n => simp [WFscriptField] at hfs2
                            | jarr ys => simp [WFscriptField] at hfs2
                            | jobj gs => simp [WFscriptField] at hfs2
                    | null => simp [WFappField] at hfu
                    | jbool b => simp [WFappField] at hfu
                    | jnum n => simp [WFappField] at hfu
                    | jstr s => simp [WFappField] at hfu
                    | jarr ys => simp [WFappField] at hfu
              obtain ⟨ufs, sc, hu1, hu2⟩ := hscr
              have e2 : pyGetD (.jobj afs) "urscript" (.jobj []) = .ok (.jobj ufs) := by
                simp [pyGetD, hu1]
              have e3 : pyGetD (.jobj ufs) "script" (.jstr "") = .ok (.jstr sc) := by
                simp [pyGetD, hu2]
              simp [urpx_to_script, e1, hifs, e2, e3, isOkE]
          | null => simp [WFdocField] at hf
          | jbool b => simp [WFdocField] at hf
          | jnum n => simp [WFdocField] at hf
          | jstr s => simp [WFdocField] at hf
          | jarr ys => simp [WFdocField] at hf
  | null => simp [WFdoc] at hdoc
  | jbool b => simp [WFdoc] at hdoc
  | jnum n => simp [WFdoc] at hdoc
  | jstr s => simp [WFdoc] at hdoc
  | jarr ys => simp [WFdoc] at hdoc

theorem urpx_to_txt_wf : ∀ data stem, WFdoc data = true →
    ∃ ms, urpx_to_txt data stem = .ok (stem ++ "_converted.txt",
      joinWith "\n" (flattenSpec (outlineOf (specVarDecls data) (.jarr ms)) 0)) := by
  intro data stem hdoc
  obtain ⟨xs, ms, hx1, hm1, hm2, hv2, hb⟩ := build_outline_wf data hdoc
  have hroot : WFnode (outlineOf (specVarDecls data) (.jarr ms)) = true :=
    outlineOf_wfnode (specVarDecls data) ms hv2 hm2
  have hw := walk_pretty_wf (outlineOf (specVarDecls data) (.jarr ms)) 0 hroot
  exact ⟨ms, by simp [urpx_to_txt, hb, hw]⟩

/-! ### Fall-through behaviour of the Label Resolver -/

/-- A `programLabel` that yields no text: absent, a string that strips to
empty, a (well-formed) fragment sequence none of whose fragments
contributes, or a value of another type. -/
def plNoText (fs : List (String × JVal)) : Bool :=
  match lookupField fs "programLabel" with
  | none => true
  | some (.jstr s) => decide (pyStrip s = "")
  | some (.jarr l) => WFfrags l && decide (fragParts l = [])
  | some _ => true

theorem get_label_fallthrough : ∀ fs, plNoText fs = true →
    get_label (.jobj fs) = labelFromType fs := by
  intro fs h
  cases hpl : lookupField fs "programLabel" with
  | none => simp [get_label, hpl]
  | some v =>
      simp only [plNoText, hpl] at h
      cases v with
      | jstr s =>
          have : pyStrip s = "" := by simpa using h
          simp [get_label, hpl, this]
      | jarr l =>
          rw [Bool.and_eq_true] at h
          have hemp : fragParts l = [] := by simpa using h.2
          have hfold := fragFold_wf l h.1 []
          rw [hemp] at hfold
          simp [get_label, hpl, hfold]
      | null => simp [get_label, hpl]
      | jbool b => simp [get_label, hpl]
      | jnum n => simp [get_label, hpl]
      | jobj gs => simp [get_label, hpl]

theorem get_label_joined : ∀ fs l, lookupField fs "programLabel" = some (.jarr l) →
    WFfrags l = true → fragParts l ≠ [] →
    get_label (.jobj fs) = .ok (pyStrip (joinWith " " (fragParts l))) := by
  intro fs l hpl hwf hne
  have hfold := fragFold_wf l hwf []
  cases hfp : fragParts l with
  | nil => exact absurd hfp hne
  | cons a r =>
      rw [hfp] at hfold
      simp [get_label, hpl, hfold, hfp]

/-! ### The functions-container search when no node matches -/

def notFuncNode (n : JVal) : Bool :=
  match isFuncContainer n with
  | .ok false => true
  | _ => false

def noFuncNodes : List JVal → Bool
  | [] => true
  | n :: r => notFuncNode n && noFuncNodes r

theorem findFunc_none : ∀ cs, noFuncNodes cs = true →
    findFuncChildren cs = .ok (.jarr []) := by
  intro cs
  induction cs with
  | nil => intro _; rfl
  | cons n r ih =>
      intro h
      rw [noFuncNodes, Bool.and_eq_true] at h
      have hfc : isFuncContainer n = .ok false := by
        have h1 := h.1
        cases hx : isFuncContainer n with
        | error e => simp [notFuncNode, hx] at h1
        | ok b =>
            cases b with
            | true => simp [notFuncNode, hx] at h1
            | false => rfl
      have hrest := ih h.2
      simp [findFuncChildren, hfc, hrest]

/-! ### Filesystem write idempotence -/

theorem fsWrite_idem : ∀ fs nm c, fsWrite (fsWrite fs nm c) nm c = fsWrite fs nm c := by
  intro fs nm c
  unfold fsWrite
  rw [List.filter_append]
  simp [List.filter_filter]

/-! ## The claims -/

/-- C1: the claimed section header labels do not appear in the output.  On a
Project Document (here the minimal one) the flattened outline consists of
the root line and the two depth-1 section lines, but all three read
"Unknown": `get_label` resolves labels from `programLabel` (falling back to
`contributedNode.type`) and never consults the synthetic `name` field in
which the reshaper stores "Variables Setup" and "Robot Program", so the
claimed labels are unreachable in txt output. -/
theorem C1_section_lines_unknown :
    urpx_to_txt (.jobj []) "p" =
      .ok ("p_converted.txt", "Unknown\n  Unknown\n  Unknown") := rfl

/-- C2 counterexample: a fragment whose `value` is the empty string makes
the resolver return the empty string, although the claim requires a
non-empty result and a fall-through to the `contributedNode.type` rule
(which here would give "Move"). -/
theorem C2_counterexample :
    get_label (.jobj [("programLabel", .jarr [.jobj [("value", .jstr "")]]),
      ("contributedNode", .jobj [("type", .jstr "ur-move")])]) = .ok "" ∧
    labelFromType [("programLabel", .jarr [.jobj [("value", .jstr "")]]),
      ("contributedNode", .jobj [("type", .jstr "ur-move")])] = .ok "Move" :=
  ⟨rfl, rfl⟩

/-- C2 (amended): for a sequence `programLabel`, resolution falls through to
the `contributedNode.type` rule exactly when no fragment contributed an
entry (the early return tests the parts list, not the joined text); when
some fragment matched, the joined-and-stripped text is returned even if it
is empty, so the resolver can return the empty string. -/
theorem C2_fragment_fallthrough : ∀ fs l,
    lookupField fs "programLabel" = some (.jarr l) → WFfrags l = true →
    (fragParts l = [] → get_label (.jobj fs) = labelFromType fs) ∧
    (fragParts l ≠ [] →
      get_label (.jobj fs) = .ok (pyStrip (joinWith " " (fragParts l)))) := by
  intro fs l hpl hwf
  constructor
  · intro hemp
    have hfold := fragFold_wf l hwf []
    rw [hemp] at hfold
    simp [get_label, hpl, hfold]
  · intro hne
    exact get_label_joined fs l hpl hwf hne

/-- C2 witness: a fragment with neither field contributes nothing, and the
resolver falls through to the type rule. -/
theorem C2_fragment_fallthrough_witness :
    lookupField [("programLabel", .jarr [.jobj []]),
      ("contributedNode", .jobj [("type", .jstr "ur-move")])] "programLabel" =
        some (.jarr [.jobj []]) ∧
    WFfrags [.jobj []] = true ∧
    fragParts [.jobj []] = [] ∧
    get_label (.jobj [("programLabel", .jarr [.jobj []]),
      ("contributedNode", .jobj [("type", .jstr "ur-move")])]) =
      labelFromType [("programLabel", .jarr [.jobj []]),
        ("contributedNode", .jobj [("type", .jstr "ur-move")])] :=
  ⟨rfl, by decide, rfl,
    (C2_fragment_fallthrough [("programLabel", .jarr [.jobj []]),
      ("contributedNode", .jobj [("type", .jstr "ur-move")])] [.jobj []]
      rfl (by decide)).1 rfl⟩

/-- The type-derived label the claim describes: strip the prefix `"ur-"`
only when the type starts with it, replace hyphens with spaces, title-case. -/
def specTypeLabel (t : String) : String :=
  pyTitle (pyReplaceAll (if pyStartsWith t "ur-" then pyDropN t 3 else t) "-" " ")

/-- C3 counterexample: for type "sensor-ur-read" the code removes the inner
occurrence of "ur-" as well, yielding "Sensor Read", while the claimed
prefix-only stripping would yield "Sensor Ur Read". -/
theorem C3_counterexample :
    get_label (.jobj [("contributedNode", .jobj [("type", .jstr "sensor-ur-read")])]) =
      .ok "Sensor Read" ∧
    specTypeLabel "sensor-ur-read" = "Sensor Ur Read" ∧
    ("Sensor Read" : String) ≠ "Sensor Ur Read" :=
  ⟨rfl, rfl, by decide⟩

/-- C3 (amended): when `programLabel` yields no text and a non-empty string
type is present, the resolver removes every occurrence of "ur-" (not only a
leading prefix), replaces hyphens with spaces, and title-cases the result;
"ur-move-joint" still resolves to "Move Joint". -/
theorem C3_replace_all : ∀ fs cfs t, plNoText fs = true →
    lookupField fs "contributedNode" = some (.jobj cfs) →
    lookupField cfs "type" = some (.jstr t) → t ≠ "" →
    get_label (.jobj fs) =
      .ok (pyTitle (pyReplaceAll (pyReplaceAll t "ur-" "") "-" " ")) := by
  intro fs cfs t hnt hcn ht hne
  rw [get_label_fallthrough fs hnt]
  have htr : pyTruthy (.jstr t) = true := by
    cases h0 : t.isEmpty with
    | true => exact absurd ((String.isEmpty_iff t).mp h0) hne
    | false => simp [pyTruthy, h0]
  simp [labelFromType, hcn, ht, htr]

/-- C3 witness: the example type of the claim resolves to "Move Joint". -/
theorem C3_replace_all_witness :
    plNoText [("contributedNode", .jobj [("type", .jstr "ur-move-joint")])] = true ∧
    ("ur-move-joint" : String) ≠ "" ∧
    get_label (.jobj [("contributedNode", .jobj [("type", .jstr "ur-move-joint")])]) =
      .ok (pyTitle (pyReplaceAll (pyReplaceAll "ur-move-joint" "ur-" "") "-" " ")) ∧
    pyTitle (pyReplaceAll (pyReplaceAll "ur-move-joint" "ur-" "") "-" " ") = "Move Joint" :=
  ⟨by decide, by decide,
    C3_replace_all _ _ "ur-move-joint" (by decide) rfl rfl (by decide), rfl⟩

/-- C4: on every well-formed node tree the flattener emits exactly the
depth-first preorder line sequence of `flattenSpec`: one line per node, the
line of the node (two-space indent repeated depth times, then the resolved
label) before the lines of its children, children in original order at depth+1,
then the following siblings. -/
theorem C4_flattener : ∀ node depth, WFnode node = true →
    _walk_pretty node depth = .ok (flattenSpec node depth) :=
  walk_pretty_wf

/-- C4 witness: a root with two children, the first having one grandchild,
yields exactly 4 lines at indentation depths 0, 1, 2, 1. -/
theorem C4_flattener_witness :
    WFnode (.jobj [("programLabel", .jstr "R"), ("children", .jarr
      [.jobj [("programLabel", .jstr "A"),
        ("children", .jarr [.jobj [("programLabel", .jstr "G")]])],
       .jobj [("programLabel", .jstr "B")]])]) = true ∧
    _walk_pretty (.jobj [("programLabel", .jstr "R"), ("children", .jarr
      [.jobj [("programLabel", .jstr "A"),
        ("children", .jarr [.jobj [("programLabel", .jstr "G")]])],
       .jobj [("programLabel", .jstr "B")]])]) 0 =
      .ok (flattenSpec (.jobj [("programLabel", .jstr "R"), ("children", .jarr
        [.jobj [("programLabel", .jstr "A"),
          ("children", .jarr [.jobj [("programLabel", .jstr "G")]])],
         .jobj [("programLabel", .jstr "B")]])]) 0) ∧
    flattenSpec (.jobj [("programLabel", .jstr "R"), ("children", .jarr
      [.jobj [("programLabel", .jstr "A"),
        ("children", .jarr [.jobj [("programLabel", .jstr "G")]])],
       .jobj [("programLabel", .jstr "B")]])]) 0 = ["R", "  A", "    G", "  B"] :=
  ⟨by decide,
    C4_flattener (.jobj [("programLabel", .jstr "R"), ("children", .jarr
      [.jobj [("programLabel", .jstr "A"),
        ("children", .jarr [.jobj [("programLabel", .jstr "G")]])],
       .jobj [("programLabel", .jstr "B")]])]) 0 (by decide),
    by decide⟩

/-- C5: on a well-formed document, the Variables Setup section of the reshaper
holds exactly one synthetic leaf per `program.variableDeclarations` entry
(its `programLabel` being the `name` of the entry, or "<anon>" when absent), and
when no `program.programContent.children` node has `contributedNode.type`
equal to "ur-functions", the children of the Robot Program section are the empty
list — not an error. -/
theorem C5_reshaper : ∀ data, WFdoc data = true →
    noFuncNodes (specProgChildren data) = true →
    build_outline data = .ok (outlineOf (specVarDecls data) (.jarr [])) := by
  intro data hdoc hnf
  obtain ⟨xs, ms, hx1, hm1, hm2, hv2, hb⟩ := build_outline_wf data hdoc
  have h0 := findFunc_none (specProgChildren data) hnf
  rw [hx1] at h0
  injection h0 with h0
  injection h0 with h0
  subst h0
  have hms : mainChildren (.jarr []) = .ok (.jarr []) := rfl
  rw [hms] at hm1
  injection hm1 with hm1
  injection hm1 with hm1
  subst hm1
  exact hb

/-- C5 witness: two variable declarations named "speed" and "force", no
functions container: two leaves, empty Robot Program section. -/
theorem C5_reshaper_witness :
    WFdoc (.jobj [("program", .jobj [("variableDeclarations", .jarr
      [.jobj [("name", .jstr "speed")], .jobj [("name", .jstr "force")]])])]) = true ∧
    noFuncNodes (specProgChildren (.jobj [("program", .jobj [("variableDeclarations", .jarr
      [.jobj [("name", .jstr "speed")], .jobj [("name", .jstr "force")]])])])) = true ∧
    build_outline (.jobj [("program", .jobj [("variableDeclarations", .jarr
      [.jobj [("name", .jstr "speed")], .jobj [("name", .jstr "force")]])])]) =
      .ok (outlineOf (specVarDecls (.jobj [("program", .jobj [("variableDeclarations", .jarr
        [.jobj [("name", .jstr "speed")], .jobj [("name", .jstr "force")]])])])) (.jarr [])) ∧
    (specVarDecls (.jobj [("program", .jobj [("variableDeclarations", .jarr
      [.jobj [("name", .jstr "speed")], .jobj [("name", .jstr "force")]])])])).map varLeafSpec =
      [.jobj [("programLabel", .jstr "speed")], .jobj [("programLabel", .jstr "force")]] :=
  ⟨by decide, by decide,
    C5_reshaper (.jobj [("program", .jobj [("variableDeclarations", .jarr
      [.jobj [("name", .jstr "speed")], .jobj [("name", .jstr "force")]])])])
      (by decide) (by decide),
    by decide⟩

/-- C6: on a document whose script-relevant fields are well-typed where
present, the emitter produces `stem + "_converted.script"` containing
exactly the header `def <name>():` (name from
`application.applicationInfo.name`, else the stem), the fixed
hidden-verification-variable boilerplate line, and every script line
prefixed by two spaces — an empty or absent script contributing no lines. -/
theorem C6_script_emitter : ∀ data stem, WFscriptDoc data = true →
    urpx_to_script data stem = .ok (stem ++ "_converted.script", specEmit data stem) :=
  urpx_to_script_spec

/-- C6 witness: name "Pick" with a two-line script yields exactly the four
claimed lines. -/
theorem C6_script_emitter_witness :
    WFscriptDoc (.jobj [("application", .jobj
      [("applicationInfo", .jobj [("name", .jstr "Pick")]),
       ("urscript", .jobj [("script", .jstr "move_j(p1)\nmove_j(p2)")])])]) = true ∧
    urpx_to_script (.jobj [("application", .jobj
      [("applicationInfo", .jobj [("name", .jstr "Pick")]),
       ("urscript", .jobj [("script", .jstr "move_j(p1)\nmove_j(p2)")])])]) "f" =
      .ok ("f_converted.script", specEmit (.jobj [("application", .jobj
        [("applicationInfo", .jobj [("name", .jstr "Pick")]),
         ("urscript", .jobj [("script", .jstr "move_j(p1)\nmove_j(p2)")])])]) "f") ∧
    specEmit (.jobj [("application", .jobj
      [("applicationInfo", .jobj [("name", .jstr "Pick")]),
       ("urscript", .jobj [("script", .jstr "move_j(p1)\nmove_j(p2)")])])]) "f" =
      "def Pick():\n  global _hidden_verificationVariable = 0\n  move_j(p1)\n  move_j(p2)" :=
  ⟨by decide,
    C6_script_emitter (.jobj [("application", .jobj
      [("applicationInfo", .jobj [("name", .jstr "Pick")]),
       ("urscript", .jobj [("script", .jstr "move_j(p1)\nmove_j(p2)")])])]) "f" (by decide),
    rfl⟩

/-- C7: when the source text does not parse as JSON, the job propagates a
parse error and the destination directory is left exactly as it was: no
output file is written. -/
theorem C7_parse_error : ∀ (parse : String → Option JVal) (j : Job) (fs : FileSys),
    parse j.srcText = none →
    Job.runFS parse j fs = (.error .parseError, fs) := by
  intro parse j fs h
  simp [Job.runFS, Job.run, h]

/-- C7 witness: invalid JSON text, one pre-existing file, nothing changes. -/
theorem C7_parse_error_witness :
    (fun _ : String => (none : Option JVal)) "not json" = none ∧
    Job.runFS (fun _ => none) ⟨"not json", "src", "txt"⟩ [("keep.txt", "data")] =
      (.error .parseError, [("keep.txt", "data")]) :=
  ⟨rfl, C7_parse_error (fun _ => none) ⟨"not json", "src", "txt"⟩ [("keep.txt", "data")] rfl⟩

/-- C8: on every structurally sparse but valid Project Document and
well-formed Program Node, none of the Label Resolver, Tree Flattener,
Program Reshaper, outline serializer and Script Emitter raises: each
returns a result, the missing fields having degraded to their defaults. -/
theorem C8_no_raise : ∀ doc n stem depth, WFdoc doc = true → WFnode n = true →
    isOkE (get_label n) = true ∧ isOkE (_walk_pretty n depth) = true ∧
    isOkE (build_outline doc) = true ∧ isOkE (urpx_to_txt doc stem) = true ∧
    isOkE (urpx_to_script doc stem) = true := by
  intro doc n stem depth hdoc hn
  refine ⟨?_, ?_, ?_, ?_, urpx_to_script_okb doc stem hdoc⟩
  · obtain ⟨s, hs⟩ := get_label_ok n hn
    simp [hs, isOkE]
  · have hw := walk_pretty_wf n depth hn
    simp [hw, isOkE]
  · obtain ⟨xs, ms, _, _, _, _, hb⟩ := build_outline_wf doc hdoc
    simp [hb, isOkE]
  · obtain ⟨ms, ht⟩ := urpx_to_txt_wf doc stem hdoc
    simp [ht, isOkE]

/-- C8 witness: a document sparse at several levels and a node with an
empty fragment list. -/
theorem C8_no_raise_witness :
    WFdoc (.jobj [("program", .jobj []), ("application", .jobj [])]) = true ∧
    WFnode (.jobj [("programLabel", .jarr [])]) = true ∧
    (isOkE (get_label (.jobj [("programLabel", .jarr [])])) = true ∧
     isOkE (_walk_pretty (.jobj [("programLabel", .jarr [])]) 0) = true ∧
     isOkE (build_outline (.jobj [("program", .jobj []), ("application", .jobj [])])) = true ∧
     isOkE (urpx_to_txt (.jobj [("program", .jobj []), ("application", .jobj [])]) "s") = true ∧
     isOkE (urpx_to_script (.jobj [("program", .jobj []), ("application", .jobj [])]) "s") = true) :=
  ⟨by decide, by decide,
    C8_no_raise (.jobj [("program", .jobj []), ("application", .jobj [])])
      (.jobj [("programLabel", .jarr [])]) "s" 0 (by decide) (by decide)⟩

/-- C9: a job that succeeds writes its output under the job-determined name;
running it again with the same source, destination and mode succeeds with
the same name and overwrites the file with identical contents, leaving the
directory in the same state — idempotent on the filesystem side. -/
theorem C9_idempotent : ∀ (parse : String → Option JVal) (j : Job) (fs : FileSys) nm content,
    Job.run parse j = .ok (nm, content) →
    Job.runFS parse j fs = (.ok nm, fsWrite fs nm content) ∧
    Job.runFS parse j (fsWrite fs nm content) = (.ok nm, fsWrite fs nm content) := by
  intro parse j fs nm content h
  constructor
  · simp [Job.runFS, h]
  · simp [Job.runFS, h, fsWrite_idem]

/-- C9 witness: converting the minimal document twice in txt mode. -/
theorem C9_idempotent_witness :
    Job.run (fun _ => some (.jobj [])) ⟨"x", "p", "txt"⟩ =
      .ok ("p_converted.txt", "Unknown\n  Unknown\n  Unknown") ∧
    (Job.runFS (fun _ => some (.jobj [])) ⟨"x", "p", "txt"⟩ [] =
      (.ok "p_converted.txt", fsWrite [] "p_converted.txt" "Unknown\n  Unknown\n  Unknown") ∧
     Job.runFS (fun _ => some (.jobj [])) ⟨"x", "p", "txt"⟩
        (fsWrite [] "p_converted.txt" "Unknown\n  Unknown\n  Unknown") =
      (.ok "p_converted.txt", fsWrite [] "p_converted.txt" "Unknown\n  Unknown\n  Unknown")) :=
  ⟨rfl, C9_idempotent (fun _ => some (.jobj [])) ⟨"x", "p", "txt"⟩ []
    "p_converted.txt" "Unknown\n  Unknown\n  Unknown" rfl⟩

/-- C10: the job dispatches only on `mode == "script"`: for every mode value
other than "script" — not just "txt" — the run is exactly the outline (txt)
conversion; the mode itself is never validated and an unknown mode causes no
error. -/
theorem C10_mode_dispatch : ∀ (parse : String → Option JVal) (j : Job) data,
    parse j.srcText = some data → j.mode ≠ "script" →
    Job.run parse j = urpx_to_txt data j.stem := by
  intro parse j data h hm
  simp [Job.run, h, hm]

/-- C10 witness: the unknown mode "banana" takes the txt branch. -/
theorem C10_mode_dispatch_witness :
    (fun _ : String => some (JVal.jobj [])) "t" = some (.jobj []) ∧
    (("banana" : String) ≠ "script") ∧
    Job.run (fun _ => some (.jobj [])) ⟨"t", "p", "banana"⟩ = urpx_to_txt (.jobj []) "p" :=
  ⟨rfl, by decide,
    C10_mode_dispatch (fun _ => some (.jobj [])) ⟨"t", "p", "banana"⟩ (.jobj [])
      rfl (by decide)⟩
